import Mathlib

/-!
Verification of the swipeback dual n-back core: the trial-sequence
generator (`buildGameSequence`), the scorer (`calculateScores`, in its
flag-based form from `src/script.js` and its value-recomparing form from
`src/unnamed/part_000`), the adaptive level controller
(`updateResultsUI`), and the input handler (`handleInput`).

Modelling conventions:
* JavaScript's `Math.random()` is embedded as an explicit entropy stream
  `σ : Nat → Nat` together with a stream cursor `k`; the JS expression
  `Math.floor(Math.random() * m)`, whose value is an arbitrary element of
  `[0, m)` (and `0` when `m = 0`), is embedded as `randBelow (σ k) m`.
  Theorems quantify over all streams.
* The unbounded `while` loop of `pickRandomTrials` is embedded with an
  explicit fuel parameter; `none` for every fuel means the loop never
  exits, i.e. the JS code diverges.
* `Math.round` applied to the program's quotients (`m * 0.10`, `m * 0.20`,
  `tp / denom * 100`) is embedded as exact round-half-up on rationals,
  `jsRound`; for the magnitudes the program produces (counts below a few
  hundred) the double-precision computation agrees with the exact one.
* The tri-state response fields (`null` / `true` / `false`) are embedded
  as `Option Bool`; `x === true` becomes `x = some true`.
* Reading `responses[i]` past the end of the array, which in JS yields
  `undefined` and makes the subsequent field access throw, is embedded by
  returning `none` from the scorer; the scorer has no other error path.
-/

/-- A generated trial: grid cell, spoken letter, and the two pre-computed
match flags (from `buildGameSequence` in `src/script.js`). -/
structure Stimulus where
  position : Nat
  letter : Char
  isPositionMatch : Bool
  isAudioMatch : Bool
deriving DecidableEq

/-- A player response slot: tri-state per channel (`null`/`true`/`false`
in JS, `Option Bool` here). -/
structure Response where
  position : Option Bool
  audio : Option Bool
deriving DecidableEq

/-- Per-channel counters accumulated by `calculateScores`. -/
structure Counters where
  tp : Nat
  fp : Nat
  fn : Nat
deriving DecidableEq

/-- The scorer's result record `{ positionPct, audioPct, overallPct }`. -/
structure ScoreResult where
  positionPct : Nat
  audioPct : Nat
  overallPct : Nat
deriving DecidableEq

/-- The active letter distribution: `LETTER_DISTRIBUTIONS['brainworkshop']`
from `src/script.js`. -/
def letters : List Char := ['C', 'H', 'J', 'K', 'L', 'Q', 'R', 'S', 'T']

/-- Default used for out-of-range `Stimulus` reads (never hit in range). -/
def stimDefault : Stimulus := ⟨0, 'A', false, false⟩

/-- Default used for out-of-range `Response` reads (never hit in range). -/
def respDefault : Response := ⟨none, none⟩

/-- Embedding of `Math.floor(Math.random() * m)` at entropy value `r`:
an arbitrary element of `[0, m)`, and `0` when `m = 0`. -/
def randBelow (r m : Nat) : Nat := if m = 0 then 0 else r % m

/-- Round-half-up of the rational `num / den` (the value of JS
`Math.round(num / den)` for the magnitudes this program produces). -/
def jsRound (num den : Nat) : Nat := (2 * num + den) / (2 * den)

/-- `randomExcluding(max, exclude)` from `src/script.js` lines 229-232:
draw `val` in `[0, max-1)` and shift it past `exclude`.  The `exclude`
argument is an `Int` because the letter path passes `indexOf`'s result,
which is `-1` in JS when the letter is not found. -/
def randomExcluding (r : Nat) (mx : Nat) (exclude : Int) : Nat :=
  let val := randBelow r (mx - 1)
  if exclude ≤ (val : Int) then val + 1 else val

/-- JS `Array.prototype.indexOf`: first index of `c`, `-1` if absent. -/
def jsIndexOf (l : List Char) (c : Char) : Int :=
  match l with
  | [] => -1
  | x :: xs =>
    if x = c then 0
    else
      let r := jsIndexOf xs c
      if r < 0 then -1 else r + 1

/-- `pickRandomTrials(count, excludeSet)` from `src/script.js` lines
197-206: repeatedly draw `trial = n + randBelow r matchable` until
`count` trials outside `excludeSet` and not already picked have been
collected.  `fuel` bounds the number of loop iterations; the JS loop is
unbounded, so divergence of the JS code is `none` for every fuel. -/
def pickRandomTrials (σ : Nat → Nat) (n matchable count : Nat)
    (excludeSet : List Nat) :
    Nat → List Nat → Nat → Option (List Nat × Nat)
  | 0, picked, _k =>
    if picked.length < count then none else some (picked, _k)
  | fuel + 1, picked, k =>
    if picked.length < count then
      let trial := n + randBelow (σ k) matchable
      if trial ∉ excludeSet ∧ trial ∉ picked then
        pickRandomTrials σ n matchable count excludeSet fuel
          (picked ++ [trial]) (k + 1)
      else
        pickRandomTrials σ n matchable count excludeSet fuel picked (k + 1)
    else
      some (picked, k)

/-- The value-generation loop of `buildGameSequence` (`src/script.js`
lines 234-256): walk `i = 0 .. totalTrials-1` appending a position and a
letter per trial; for `i ≥ n` copy the lag-`n` value on planned match
trials and draw a guaranteed different value otherwise. -/
def genLoop (σ : Nat → Nat) (n : Nat) (posSet audSet : List Nat) :
    Nat → Nat → Nat → List Nat → List Char → (List Nat × List Char)
  | 0, _i, _k, ps, ls => (ps, ls)
  | rem + 1, i, k, ps, ls =>
    if i < n then
      let p := randBelow (σ k) 9
      let c := letters.getD (randBelow (σ (k + 1)) letters.length) 'A'
      genLoop σ n posSet audSet rem (i + 1) (k + 2) (ps ++ [p]) (ls ++ [c])
    else
      let prevP := ps.getD (i - n) 0
      let pk : Nat × Nat :=
        if i ∈ posSet then (prevP, k)
        else (randomExcluding (σ k) 9 (prevP : Int), k + 1)
      let prevL := ls.getD (i - n) 'A'
      let ck : Char × Nat :=
        if i ∈ audSet then (prevL, pk.2)
        else
          let prevLetterIdx := jsIndexOf letters prevL
          (letters.getD (randomExcluding (σ pk.2) letters.length prevLetterIdx) 'A',
           pk.2 + 1)
      genLoop σ n posSet audSet rem (i + 1) ck.2 (ps ++ [pk.1]) (ls ++ [ck.1])

/-- `buildGameSequence(n, totalTrials)` from `src/script.js` lines
182-270: plan disjoint position-only, audio-only and dual match index
sets in `[n, totalTrials)`, then generate values and emit stimuli whose
flags come from set membership.  `0.10` and `0.20` are `1/10` and `1/5`;
`matchableTrials * 0.20` rounds like `matchableTrials / 5`. -/
def buildGameSequence (σ : Nat → Nat) (fuel : Nat) (n totalTrials : Nat) :
    Option (List Stimulus) :=
  let matchableTrials := totalTrials - n
  let dualMatches := max 1 (jsRound matchableTrials 10)
  let positionOnlyMatches := max 2 (jsRound matchableTrials 5)
  let audioOnlyMatches := max 2 (jsRound matchableTrials 5)
  match pickRandomTrials σ n matchableTrials positionOnlyMatches [] fuel [] 0 with
  | none => none
  | some (posOnly, k1) =>
    match pickRandomTrials σ n matchableTrials audioOnlyMatches posOnly fuel [] k1 with
    | none => none
    | some (audOnly, k2) =>
      match pickRandomTrials σ n matchableTrials dualMatches (posOnly ++ audOnly) fuel [] k2 with
      | none => none
      | some (dual, k3) =>
        let positionMatchTrials := posOnly ++ dual
        let audioMatchTrials := audOnly ++ dual
        let pl := genLoop σ n positionMatchTrials audioMatchTrials totalTrials 0 k3 [] []
        some ((List.range totalTrials).map (fun i =>
          { position := pl.1.getD i 0
            letter := pl.2.getD i 'A'
            isPositionMatch := decide (i ∈ positionMatchTrials)
            isAudioMatch := decide (i ∈ audioMatchTrials) }))

/-- The shared per-trial classification step of both scorers
(`src/script.js` lines 463-481 and `src/unnamed/part_000` lines 335-353,
textually identical): bump TP on match-and-response, FP on
nonmatch-and-response, FN on match-and-no-response; ignore true
negatives. -/
def stepC (was responded : Bool) (c : Counters) : Counters :=
  if was && responded then { c with tp := c.tp + 1 }
  else if !was && responded then { c with fp := c.fp + 1 }
  else if was && !responded then { c with fn := c.fn + 1 }
  else c

/-- The `calcPct` closure (`src/script.js` lines 485-488): percentage
`TP / (TP + FP + FN)`, `0` on a zero denominator. -/
def calcPct (stats : Counters) : Nat :=
  let denom := stats.tp + stats.fp + stats.fn
  if denom = 0 then 0 else jsRound (stats.tp * 100) denom

/-- Assembly of the scorer's result (`src/script.js` lines 490-497):
per-channel percentages plus the overall percentage over all six
counters. -/
def mkResult (position audio : Counters) : ScoreResult :=
  let overallDenom :=
    position.tp + position.fp + position.fn + audio.tp + audio.fp + audio.fn
  { positionPct := calcPct position
    audioPct := calcPct audio
    overallPct :=
      if overallDenom = 0 then 0
      else jsRound ((position.tp + audio.tp) * 100) overallDenom }

/-- The scoring loop of `calculateScores` in `src/script.js` (lines
454-482): `rem` iterations starting at index `i`, reading the
pre-computed match flags of `sequence[i]` and the response `responses[i]`.
A read of `responses[i]` past the end of the array is `none` (the JS code
would throw on the subsequent field access). -/
def scoreGo (sequence : List Stimulus) (responses : List Response) :
    Nat → Nat → Counters → Counters → Option (Counters × Counters)
  | 0, _i, position, audio => some (position, audio)
  | rem + 1, i, position, audio =>
    match responses[i]? with
    | none => none
    | some response =>
      let s := sequence.getD i stimDefault
      scoreGo sequence responses rem (i + 1)
        (stepC s.isPositionMatch (decide (response.position = some true)) position)
        (stepC s.isAudioMatch (decide (response.audio = some true)) audio)

/-- `calculateScores(sequence, responses, nLevel)` from `src/script.js`
lines 450-498: loop `i = nLevel .. sequence.length - 1` with the
flag-based ground truth, then emit the three percentages. -/
def calculateScores (sequence : List Stimulus) (responses : List Response)
    (nLevel : Nat) : Option ScoreResult :=
  (scoreGo sequence responses (sequence.length - nLevel) nLevel ⟨0, 0, 0⟩ ⟨0, 0, 0⟩).map
    (fun pa => mkResult pa.1 pa.2)

namespace Part000

/-- The scoring loop of `calculateScores` in `src/unnamed/part_000`
(lines 327-354): identical to the flag-based loop except that the ground
truth is recomputed by comparing `history[i]` with `history[i - nLevel]`
by value. -/
def scoreGo (history : List Stimulus) (responses : List Response) (nLevel : Nat) :
    Nat → Nat → Counters → Counters → Option (Counters × Counters)
  | 0, _i, position, audio => some (position, audio)
  | rem + 1, i, position, audio =>
    match responses[i]? with
    | none => none
    | some response =>
      let wasPositionMatch :=
        decide ((history.getD i stimDefault).position =
          (history.getD (i - nLevel) stimDefault).position)
      let wasAudioMatch :=
        decide ((history.getD i stimDefault).letter =
          (history.getD (i - nLevel) stimDefault).letter)
      Part000.scoreGo history responses nLevel rem (i + 1)
        (stepC wasPositionMatch (decide (response.position = some true)) position)
        (stepC wasAudioMatch (decide (response.audio = some true)) audio)

/-- `calculateScores(history, responses, nLevel)` from
`src/unnamed/part_000` lines 323-370: the value-recomparing scorer.  Its
history entries carry only `position` and `letter`; it is applied here to
`Stimulus` lists, ignoring the flag fields. -/
def calculateScores (history : List Stimulus) (responses : List Response)
    (nLevel : Nat) : Option ScoreResult :=
  (Part000.scoreGo history responses nLevel (history.length - nLevel) nLevel
      ⟨0, 0, 0⟩ ⟨0, 0, 0⟩).map
    (fun pa => mkResult pa.1 pa.2)

end Part000

/-- `LEVEL_UP_THRESHOLD` from `src/script.js` line 168. -/
def LEVEL_UP_THRESHOLD : Nat := 85

/-- `LEVEL_DOWN_THRESHOLD` from `src/script.js` line 169. -/
def LEVEL_DOWN_THRESHOLD : Nat := 70

/-- The level-adjustment effect of `updateResultsUI` (`src/script.js`
lines 513-527) on `nLevel`; the DOM updates it interleaves carry no
state relevant to the level. -/
def updateResultsUI (overallPct : Nat) (nLevel : Nat) : Nat :=
  if LEVEL_UP_THRESHOLD ≤ overallPct ∧ nLevel < 9 then nLevel + 1
  else if overallPct < LEVEL_DOWN_THRESHOLD ∧ 1 < nLevel then nLevel - 1
  else nLevel

/-- The four swipe/arrow directions fed to `handleInput`. -/
inductive Direction where
  | left
  | right
  | up
  | down
deriving DecidableEq

/-- In-place update of one array slot, embedding the JS field mutation
`responses[idx].field = v`.  Out of range the list is unchanged (the
caller always passes an in-range index). -/
def listModify {α : Type} (l : List α) (i : Nat) (f : α → α) : List α :=
  match l, i with
  | [], _ => []
  | x :: xs, 0 => f x :: xs
  | x :: xs, j + 1 => x :: listModify xs j f

/-- `handleInput(direction)` from `src/script.js` lines 366-396, as a
function of the state it reads and writes: guard on `gameActive` and
`currentTrial`, then mutate the response slot `currentTrial - 1`.
`left`/`right` are additive single-channel sets, `up` sets both, `down`
resets both to `null`. -/
def handleInput (gameActive : Bool) (currentTrial : Nat)
    (responses : List Response) (direction : Direction) : List Response :=
  if gameActive = false ∨ currentTrial = 0 then responses
  else
    let responseIndex := currentTrial - 1
    match direction with
    | .left => listModify responses responseIndex
        (fun r => { r with position := some true })
    | .right => listModify responses responseIndex
        (fun r => { r with audio := some true })
    | .up => listModify responses responseIndex
        (fun r => { r with position := some true, audio := some true })
    | .down => listModify responses responseIndex
        (fun r => { r with position := none, audio := none })

/-- Proof-side invariant of the value-generation loop: every generated
letter lies in the active distribution, and at every index at lag
distance the planned membership agrees with value equality. -/
def GenInv (n : Nat) (posSet audSet : List Nat) (ps : List Nat) (ls : List Char) : Prop :=
  (∀ j, j < ls.length → ls.getD j 'A' ∈ letters) ∧
  (∀ j, n ≤ j → j < ps.length → (j ∈ posSet ↔ ps.getD j 0 = ps.getD (j - n) 0)) ∧
  (∀ j, n ≤ j → j < ls.length → (j ∈ audSet ↔ ls.getD j 'A' = ls.getD (j - n) 'A'))

/-- Componentwise sum of counter records, used to state what one scoring
pass adds to its accumulators. -/
def addC (c d : Counters) : Counters := ⟨c.tp + d.tp, c.fp + d.fp, c.fn + d.fn⟩

/-- The claims' "within plus or minus one" tolerance. -/
abbrev within1 (a b : Nat) : Prop := a ≤ b + 1 ∧ b ≤ a + 1

/-- A concrete entropy stream used to instantiate the quantified
generator theorems. -/
def sigma0 : Nat → Nat := fun k => k

/-- The sequence generated at `n = 1`, `totalTrials = 6` from `sigma0`. -/
def seqW1 : List Stimulus := (buildGameSequence sigma0 100 1 6).getD []

/-- The sequence generated at `n = 2`, `totalTrials = 20` from `sigma0`. -/
def seqW5 : List Stimulus := (buildGameSequence sigma0 100 2 20).getD []

lemma randBelow_lt (r m : Nat) (h : 1 ≤ m) : randBelow r m < m := by
  unfold randBelow
  rw [if_neg (by omega)]
  exact Nat.mod_lt _ h

lemma randBelow_eq_zero (r m : Nat) (h : m ≤ 1) : randBelow r m = 0 := by
  rcases Nat.le_one_iff_eq_zero_or_eq_one.1 h with rfl | rfl <;>
    simp [randBelow, Nat.mod_one]

lemma randomExcluding_ne_int (r mx : Nat) (e : Int) :
    (randomExcluding r mx e : Int) ≠ e := by
  rcases em (e ≤ ((randBelow r (mx - 1) : Nat) : Int)) with h | h
  · simp only [randomExcluding, if_pos h]
    push_cast
    omega
  · simp only [randomExcluding, if_neg h]
    omega

lemma randomExcluding_lt (r mx : Nat) (e : Int) (h : 2 ≤ mx) :
    randomExcluding r mx e < mx := by
  have hv : randBelow r (mx - 1) < mx - 1 := randBelow_lt _ _ (by omega)
  rcases em (e ≤ ((randBelow r (mx - 1) : Nat) : Int)) with hc | hc
  · simp only [randomExcluding, if_pos hc]
    omega
  · simp only [randomExcluding, if_neg hc]
    omega

lemma letters_length : letters.length = 9 := rfl

lemma letters_getD_mem : ∀ j, j < 9 → letters.getD j 'A' ∈ letters := by decide

lemma letters_getD_inj :
    ∀ a, a < 9 → ∀ b, b < 9 → a ≠ b →
      letters.getD a 'A' ≠ letters.getD b 'A' := by decide

lemma jsIndexOf_letters :
    ∀ c ∈ letters, 0 ≤ jsIndexOf letters c ∧ jsIndexOf letters c < 9 ∧
      letters.getD (jsIndexOf letters c).toNat 'A' = c := by decide

lemma getD_append_lt {α : Type} (l l2 : List α) (d : α) (j : Nat)
    (h : j < l.length) : (l ++ l2).getD j d = l.getD j d := by
  simp [List.getD_eq_getElem?_getD, List.getElem?_append_left h]

lemma getD_concat_self {α : Type} (l : List α) (a d : α) :
    (l ++ [a]).getD l.length d = a := by
  simp [List.getD_eq_getElem?_getD, List.getElem?_concat_length]

lemma getD_concat_of_length {α : Type} (l : List α) (a d : α) (j : Nat)
    (h : l.length = j) : (l ++ [a]).getD j d = a := by
  subst h
  exact getD_concat_self l a d

lemma pickRandomTrials_sound (σ : Nat → Nat) (n matchable count : Nat)
    (excludeSet : List Nat) (hm : 1 ≤ matchable) :
    ∀ fuel picked k p k2,
      pickRandomTrials σ n matchable count excludeSet fuel picked k = some (p, k2) →
      (∀ t ∈ p, t ∈ picked ∨ (n ≤ t ∧ t < n + matchable ∧ t ∉ excludeSet)) ∧
      (picked.Nodup → p.Nodup) ∧
      (picked.length ≤ count → p.length = count) := by
  intro fuel
  induction fuel with
  | zero =>
    intro picked k p k2 h
    simp only [pickRandomTrials] at h
    split at h
    · exact absurd h (by simp)
    · rename_i hge
      obtain ⟨rfl, rfl⟩ : picked = p ∧ k = k2 := by simpa using h
      exact ⟨fun t ht => Or.inl ht, id, fun hle => by omega⟩
  | succ fuel ih =>
    intro picked k p k2 h
    simp only [pickRandomTrials] at h
    split at h
    · rename_i hlt
      split at h
      · rename_i hcond
        obtain ⟨A, B, C⟩ := ih _ _ _ _ h
        have htr : n ≤ n + randBelow (σ k) matchable ∧
            n + randBelow (σ k) matchable < n + matchable ∧
            n + randBelow (σ k) matchable ∉ excludeSet := by
          have := randBelow_lt (σ k) matchable hm
          exact ⟨by omega, by omega, hcond.1⟩
        refine ⟨?_, ?_, ?_⟩
        · intro t ht
          rcases A t ht with hmem | hgood
          · rcases List.mem_append.1 hmem with h1 | h1
            · exact Or.inl h1
            · have : t = n + randBelow (σ k) matchable := by simpa using h1
              exact Or.inr (this ▸ htr)
          · exact Or.inr hgood
        · intro hnd
          exact B (by simp [List.nodup_append, hnd, hcond.2])
        · intro _
          exact C (by simp; omega)
      · exact ih _ _ _ _ h
    · rename_i hge
      obtain ⟨rfl, rfl⟩ : picked = p ∧ k = k2 := by simpa using h
      exact ⟨fun t ht => Or.inl ht, id, fun hle => by omega⟩

lemma pickRandomTrials_stuck (σ : Nat → Nat) (n matchable count : Nat)
    (excludeSet : List Nat) (hm : matchable ≤ 1) (hc : 2 ≤ count) :
    ∀ fuel picked k, (picked = [] ∨ picked = [n]) →
      pickRandomTrials σ n matchable count excludeSet fuel picked k = none := by
  intro fuel
  induction fuel with
  | zero =>
    intro picked k hp
    have : picked.length < count := by rcases hp with rfl | rfl <;> simp <;> omega
    simp only [pickRandomTrials, if_pos this]
  | succ fuel ih =>
    intro picked k hp
    have hlen : picked.length < count := by rcases hp with rfl | rfl <;> simp <;> omega
    have htr : n + randBelow (σ k) matchable = n := by
      rw [randBelow_eq_zero _ _ hm]
      omega
    simp only [pickRandomTrials, if_pos hlen, htr]
    split
    · rename_i hcond
      rcases hp with rfl | rfl
      · exact ih _ _ (Or.inr rfl)
      · exact absurd (by simp : n ∈ [n]) hcond.2
    · exact ih _ _ hp

lemma genLoop_inv (σ : Nat → Nat) (n : Nat) (posSet audSet : List Nat)
    (hn : 1 ≤ n) :
    ∀ rem i k ps ls, ps.length = i → ls.length = i →
      GenInv n posSet audSet ps ls →
      ((genLoop σ n posSet audSet rem i k ps ls).1.length = i + rem ∧
       (genLoop σ n posSet audSet rem i k ps ls).2.length = i + rem ∧
       GenInv n posSet audSet
         (genLoop σ n posSet audSet rem i k ps ls).1
         (genLoop σ n posSet audSet rem i k ps ls).2) := by
  intro rem
  induction rem with
  | zero =>
    intro i k ps ls hps hls hinv
    simp only [genLoop]
    exact ⟨by omega, by omega, hinv⟩
  | succ rem ih =>
    intro i k ps ls hps hls hinv
    obtain ⟨hdom, hpos, haud⟩ := hinv
    by_cases hi : i < n
    · -- first n trials: both values fully random
      simp only [genLoop, if_pos hi]
      have hmm : randBelow (σ (k + 1)) letters.length < 9 :=
        letters_length ▸ randBelow_lt _ _ (by rw [letters_length]; omega)
      have h9 := randBelow_lt (σ k) 9 (by omega)
      have := ih (i + 1) (k + 2)
        (ps ++ [randBelow (σ k) 9])
        (ls ++ [letters.getD (randBelow (σ (k + 1)) letters.length) 'A'])
        (by simp [hps]) (by simp [hls])
        ⟨?_, ?_, ?_⟩
      · obtain ⟨L1, L2, I⟩ := this
        exact ⟨by rw [L1]; omega, by rw [L2]; omega, I⟩
      · -- letter domain
        intro j hj
        simp only [List.length_append, List.length_singleton, hls] at hj
        rcases Nat.lt_succ_iff_lt_or_eq.1 hj with hj' | rfl
        · rw [getD_append_lt _ _ _ _ (hls ▸ hj')]
          exact hdom j (hls ▸ hj')
        · rw [getD_concat_of_length ls _ 'A' _ hls]
          exact letters_getD_mem _ hmm
      · -- position lag clause
        intro j hnj hj
        simp only [List.length_append, List.length_singleton, hps] at hj
        rcases Nat.lt_succ_iff_lt_or_eq.1 hj with hj' | rfl
        · rw [getD_append_lt _ _ _ _ (hps ▸ hj'),
            getD_append_lt _ _ _ _ (hps ▸ (by omega : j - n < i))]
          exact hpos j hnj (hps ▸ hj')
        · omega
      · -- audio lag clause
        intro j hnj hj
        simp only [List.length_append, List.length_singleton, hls] at hj
        rcases Nat.lt_succ_iff_lt_or_eq.1 hj with hj' | rfl
        · rw [getD_append_lt _ _ _ _ (hls ▸ hj'),
            getD_append_lt _ _ _ _ (hls ▸ (by omega : j - n < i))]
          exact haud j hnj (hls ▸ hj')
        · omega
    · -- matchable trials: planned copy or guaranteed non-match
      have hni : n ≤ i := by omega
      have hsub : i - n < i := by omega
      simp only [genLoop, if_neg hi]
      set prevP := ps.getD (i - n) 0 with hprevP
      set prevL := ls.getD (i - n) 'A' with hprevL
      have hprevLmem : prevL ∈ letters := hdom (i - n) (by omega)
      obtain ⟨hidx0, hidx9, hidxget⟩ := jsIndexOf_letters prevL hprevLmem
      set pk : Nat × Nat :=
        if i ∈ posSet then (prevP, k)
        else (randomExcluding (σ k) 9 (prevP : Int), k + 1) with hpk
      set ck : Char × Nat :=
        if i ∈ audSet then (prevL, pk.2)
        else
          (letters.getD
            (randomExcluding (σ pk.2) letters.length (jsIndexOf letters prevL)) 'A',
           pk.2 + 1) with hck
      have hpfact : (i ∈ posSet → pk.1 = prevP) ∧ (i ∉ posSet → pk.1 ≠ prevP) := by
        constructor
        · intro hmem
          rw [hpk, if_pos hmem]
        · intro hmem
          rw [hpk, if_neg hmem]
          intro hEq
          exact randomExcluding_ne_int (σ k) 9 (prevP : Int) (by exact_mod_cast hEq)
      have hcfact : (i ∈ audSet → ck.1 = prevL) ∧
          (i ∉ audSet → ck.1 ≠ prevL ∧ ck.1 ∈ letters) := by
        constructor
        · intro hmem
          rw [hck, if_pos hmem]
        · intro hmem
          rw [hck, if_neg hmem]
          have hlt : randomExcluding (σ pk.2) letters.length (jsIndexOf letters prevL) < 9 :=
            letters_length ▸ randomExcluding_lt _ _ _ (by rw [letters_length]; omega)
          have hne : randomExcluding (σ pk.2) letters.length (jsIndexOf letters prevL) ≠
              (jsIndexOf letters prevL).toNat := by
            intro hEq
            apply randomExcluding_ne_int (σ pk.2) letters.length (jsIndexOf letters prevL)
            rw [hEq, Int.toNat_of_nonneg hidx0]
          constructor
          · have hInj := letters_getD_inj _ hlt
              (jsIndexOf letters prevL).toNat (by omega) hne
            rw [hidxget] at hInj
            exact hInj
          · exact letters_getD_mem _ hlt
      have := ih (i + 1) ck.2 (ps ++ [pk.1]) (ls ++ [ck.1])
        (by simp [hps]) (by simp [hls]) ⟨?_, ?_, ?_⟩
      · obtain ⟨L1, L2, I⟩ := this
        exact ⟨by rw [L1]; omega, by rw [L2]; omega, I⟩
      · -- letter domain
        intro j hj
        simp only [List.length_append, List.length_singleton, hls] at hj
        rcases Nat.lt_succ_iff_lt_or_eq.1 hj with hj' | rfl
        · rw [getD_append_lt _ _ _ _ (hls ▸ hj')]
          exact hdom j (hls ▸ hj')
        · rw [getD_concat_of_length ls _ 'A' _ hls]
          by_cases hmem : j ∈ audSet
          · rw [hcfact.1 hmem]
            exact hprevLmem
          · exact (hcfact.2 hmem).2
      · -- position lag clause
        intro j hnj hj
        simp only [List.length_append, List.length_singleton, hps] at hj
        rcases Nat.lt_succ_iff_lt_or_eq.1 hj with hj' | rfl
        · rw [getD_append_lt _ _ _ _ (hps ▸ hj'),
            getD_append_lt _ _ _ _ (hps ▸ (by omega : j - n < i))]
          exact hpos j hnj (hps ▸ hj')
        · rw [getD_concat_of_length ps _ 0 _ hps,
            getD_append_lt _ _ _ _ (hps ▸ hsub)]
          constructor
          · intro hmem
            rw [hpfact.1 hmem]
          · intro hEq
            by_contra hmem
            exact hpfact.2 hmem hEq
      · -- audio lag clause
        intro j hnj hj
        simp only [List.length_append, List.length_singleton, hls] at hj
        rcases Nat.lt_succ_iff_lt_or_eq.1 hj with hj' | rfl
        · rw [getD_append_lt _ _ _ _ (hls ▸ hj'),
            getD_append_lt _ _ _ _ (hls ▸ (by omega : j - n < i))]
          exact haud j hnj (hls ▸ hj')
        · rw [getD_concat_of_length ls _ 'A' _ hls,
            getD_append_lt _ _ _ _ (hls ▸ hsub)]
          constructor
          · intro hmem
            rw [hcfact.1 hmem]
          · intro hEq
            by_contra hmem
            exact (hcfact.2 hmem).1 hEq

lemma map_range_getD (T : Nat) (f : Nat → Stimulus) (i : Nat) (h : i < T) :
    ((List.range T).map f).getD i stimDefault = f i := by
  simp [List.getD_eq_getElem?_getD, List.getElem?_map, List.getElem?_range h]

lemma buildGameSequence_eq (σ : Nat → Nat) (fuel n totalTrials : Nat)
    (seq : List Stimulus) (h : buildGameSequence σ fuel n totalTrials = some seq) :
    ∃ posOnly audOnly dual k1 k2 k3,
      pickRandomTrials σ n (totalTrials - n) (max 2 (jsRound (totalTrials - n) 5))
        [] fuel [] 0 = some (posOnly, k1) ∧
      pickRandomTrials σ n (totalTrials - n) (max 2 (jsRound (totalTrials - n) 5))
        posOnly fuel [] k1 = some (audOnly, k2) ∧
      pickRandomTrials σ n (totalTrials - n) (max 1 (jsRound (totalTrials - n) 10))
        (posOnly ++ audOnly) fuel [] k2 = some (dual, k3) ∧
      seq = (List.range totalTrials).map (fun i =>
        { position := (genLoop σ n (posOnly ++ dual) (audOnly ++ dual)
            totalTrials 0 k3 [] []).1.getD i 0
          letter := (genLoop σ n (posOnly ++ dual) (audOnly ++ dual)
            totalTrials 0 k3 [] []).2.getD i 'A'
          isPositionMatch := decide (i ∈ posOnly ++ dual)
          isAudioMatch := decide (i ∈ audOnly ++ dual) }) := by
  simp only [buildGameSequence] at h
  split at h
  · exact absurd h (by simp)
  · rename_i posOnly k1 h1
    split at h
    · exact absurd h (by simp)
    · rename_i audOnly k2 h2
      split at h
      · exact absurd h (by simp)
      · rename_i dual k3 h3
        refine ⟨posOnly, audOnly, dual, k1, k2, k3, h1, h2, h3, ?_⟩
        exact (Option.some.inj h).symm

lemma genInv_nil (n : Nat) (posSet audSet : List Nat) :
    GenInv n posSet audSet [] [] := by
  refine ⟨?_, ?_, ?_⟩ <;> intro j <;> simp

/-- C1: for every `n ≥ 1` and `totalTrials ≥ n + 1` on which it terminates,
`buildGameSequence` returns exactly `totalTrials` stimuli, the first `n`
stimuli have both match flags false, and from index `n` on,
`isPositionMatch` holds exactly when the position equals the position `n`
trials back, and `isAudioMatch` exactly when the letter equals the letter
`n` trials back. -/
theorem buildGameSequence_invariant (σ : Nat → Nat) (fuel n totalTrials : Nat)
    (hn : 1 ≤ n) (hT : n + 1 ≤ totalTrials) (seq : List Stimulus)
    (h : buildGameSequence σ fuel n totalTrials = some seq) :
    seq.length = totalTrials ∧
    (∀ i, i < n →
      (seq.getD i stimDefault).isPositionMatch = false ∧
      (seq.getD i stimDefault).isAudioMatch = false) ∧
    (∀ i, i < totalTrials → n ≤ i →
      ((seq.getD i stimDefault).isPositionMatch = true ↔
        (seq.getD i stimDefault).position = (seq.getD (i - n) stimDefault).position) ∧
      ((seq.getD i stimDefault).isAudioMatch = true ↔
        (seq.getD i stimDefault).letter = (seq.getD (i - n) stimDefault).letter)) := by
  obtain ⟨posOnly, audOnly, dual, k1, k2, k3, h1, h2, h3, rfl⟩ :=
    buildGameSequence_eq σ fuel n totalTrials seq h
  have hm : 1 ≤ totalTrials - n := by omega
  obtain ⟨A1, _, _⟩ := pickRandomTrials_sound σ n (totalTrials - n) _ _ hm fuel [] 0 posOnly k1 h1
  obtain ⟨A2, _, _⟩ := pickRandomTrials_sound σ n (totalTrials - n) _ _ hm fuel [] k1 audOnly k2 h2
  obtain ⟨A3, _, _⟩ := pickRandomTrials_sound σ n (totalTrials - n) _ _ hm fuel [] k2 dual k3 h3
  have hposL : ∀ t ∈ posOnly ++ dual, n ≤ t ∧ t < totalTrials := by
    intro t ht
    rcases List.mem_append.1 ht with h' | h'
    · rcases A1 t h' with h'' | h''
      · simp at h''
      · exact ⟨h''.1, by omega⟩
    · rcases A3 t h' with h'' | h''
      · simp at h''
      · exact ⟨h''.1, by omega⟩
  have haudL : ∀ t ∈ audOnly ++ dual, n ≤ t ∧ t < totalTrials := by
    intro t ht
    rcases List.mem_append.1 ht with h' | h'
    · rcases A2 t h' with h'' | h''
      · simp at h''
      · exact ⟨h''.1, by omega⟩
    · rcases A3 t h' with h'' | h''
      · simp at h''
      · exact ⟨h''.1, by omega⟩
  obtain ⟨L1, L2, I⟩ := genLoop_inv σ n (posOnly ++ dual) (audOnly ++ dual) hn
    totalTrials 0 k3 [] [] rfl rfl (genInv_nil n _ _)
  obtain ⟨Idom, Ipos, Iaud⟩ := I
  refine ⟨by simp, ?_, ?_⟩
  · intro i hi
    have hiT : i < totalTrials := by omega
    rw [map_range_getD _ _ _ hiT]
    constructor
    · exact decide_eq_false (fun hmem => by have := (hposL i hmem).1; omega)
    · exact decide_eq_false (fun hmem => by have := (haudL i hmem).1; omega)
  · intro i hiT hni
    have hiT2 : i - n < totalTrials := by omega
    rw [map_range_getD _ _ _ hiT, map_range_getD _ _ _ hiT2]
    have hp := Ipos i hni (by omega)
    have ha := Iaud i hni (by omega)
    constructor
    · simpa [decide_eq_true_iff] using hp
    · simpa [decide_eq_true_iff] using ha

/-- Witness for C1: the invariant instantiated on the concrete sequence
generated from the stream `sigma0` at `n = 1`, `totalTrials = 6`. -/
theorem buildGameSequence_invariant_applied :
    ((1 : Nat) ≤ 1 ∧ 1 + 1 ≤ 6 ∧ buildGameSequence sigma0 100 1 6 = some seqW1) ∧
    (seqW1.length = 6 ∧
     (∀ i, i < 1 →
       (seqW1.getD i stimDefault).isPositionMatch = false ∧
       (seqW1.getD i stimDefault).isAudioMatch = false) ∧
     (∀ i, i < 6 → 1 ≤ i →
       ((seqW1.getD i stimDefault).isPositionMatch = true ↔
         (seqW1.getD i stimDefault).position = (seqW1.getD (i - 1) stimDefault).position) ∧
       ((seqW1.getD i stimDefault).isAudioMatch = true ↔
         (seqW1.getD i stimDefault).letter = (seqW1.getD (i - 1) stimDefault).letter))) :=
  ⟨⟨by decide, by decide, by decide⟩,
   buildGameSequence_invariant sigma0 100 1 6 (by decide) (by decide) seqW1 (by decide)⟩

/-- C3 evidence: at `n = 1`, `totalTrials = 2` (a valid pair with
`totalTrials > n`), the requested position-only count `2` exceeds the
single eligible index, the code has no clamping, and `buildGameSequence`
never returns: for every entropy stream and every iteration bound the
picking loop is still running. -/
theorem buildGameSequence_diverges_n1t2 (σ : Nat → Nat) (fuel : Nat) :
    buildGameSequence σ fuel 1 2 = none := by
  have hstuck : pickRandomTrials σ 1 (2 - 1) (max 2 (jsRound (2 - 1) 5)) [] fuel [] 0 = none :=
    pickRandomTrials_stuck σ 1 (2 - 1) (max 2 (jsRound (2 - 1) 5)) []
      (by decide) (by decide) fuel [] 0 (Or.inl rfl)
  simp only [buildGameSequence, hstuck]

/-- C4 evidence: at the malformed pair `n = 2`, `totalTrials = 2`
(`totalTrials ≤ n`), `buildGameSequence` raises no parameter error — the
code has no validation or throw at all — and instead never returns, for
every entropy stream and every iteration bound. -/
theorem buildGameSequence_no_failfast_t_eq_n (σ : Nat → Nat) (fuel : Nat) :
    buildGameSequence σ fuel 2 2 = none := by
  have hstuck : pickRandomTrials σ 2 (2 - 2) (max 2 (jsRound (2 - 2) 5)) [] fuel [] 0 = none :=
    pickRandomTrials_stuck σ 2 (2 - 2) (max 2 (jsRound (2 - 2) 5)) []
      (by decide) (by decide) fuel [] 0 (Or.inl rfl)
  simp only [buildGameSequence, hstuck]

lemma countP_range_mem (T : Nat) :
    ∀ l : List Nat, l.Nodup → (∀ x ∈ l, x < T) →
      (List.range T).countP (fun i => decide (i ∈ l)) = l.length := by
  induction T with
  | zero =>
    intro l hnd hb
    have : l = [] := List.eq_nil_iff_forall_not_mem.2 (fun x hx => by
      have := hb x hx
      omega)
    subst this
    simp
  | succ T ih =>
    intro l hnd hb
    rw [List.range_succ, List.countP_append]
    have hcongr : (List.range T).countP (fun i => decide (i ∈ l)) =
        (List.range T).countP (fun i => decide (i ∈ l.erase T)) := by
      refine List.countP_congr (fun a ha => ?_)
      have haT : a < T := List.mem_range.1 ha
      simp [hnd.mem_erase_iff, Nat.ne_of_lt haT]
    rw [hcongr, ih (l.erase T) (hnd.erase T) (fun x hx => by
      have hx' := hnd.mem_erase_iff.1 hx
      have := hb x hx'.2
      omega)]
    by_cases hT : T ∈ l
    · have hlen : 1 ≤ l.length := List.length_pos.2 (fun hnil => by simp [hnil] at hT)
      rw [List.length_erase_of_mem hT]
      simp [hT]
      omega
    · rw [List.erase_of_not_mem hT]
      simp [hT]

lemma countP_map_range_mem (T : Nat) (f : Nat → Stimulus) (p : Stimulus → Bool)
    (l : List Nat) (hnd : l.Nodup) (hb : ∀ x ∈ l, x < T)
    (h : ∀ i, p (f i) = true ↔ i ∈ l) :
    ((List.range T).map f).countP p = l.length := by
  rw [List.countP_map]
  have hc : (List.range T).countP (p ∘ f) =
      (List.range T).countP (fun i => decide (i ∈ l)) :=
    List.countP_congr (fun a _ => by simp [Function.comp_apply, h a])
  rw [hc, countP_range_mem T l hnd hb]

/-- C5 counterexample: on the concrete generated sequence at `n = 2`,
`totalTrials = 20`, the count of stimuli with `isPositionMatch` true is
`6` — the position-only quota plus the dual quota — which is not within
plus or minus one of `round(0.20 * 18) = 4` as the claim states. -/
theorem buildGameSequence_posFlagCount_cx :
    buildGameSequence sigma0 100 2 20 = some seqW5 ∧
    seqW5.countP (fun s => s.isPositionMatch) = 6 ∧
    jsRound (20 - 2) 5 = 4 ∧
    ¬ within1 6 4 :=
  ⟨by decide, by decide, by decide, by decide⟩

/-- C5 (amended): whenever generation terminates (with `n ≥ 1`,
`totalTrials ≥ n + 1` and `round(0.20 * (totalTrials - n)) ≥ 1`), the
count of position-only stimuli (`isPositionMatch` and not `isAudioMatch`)
is within plus or minus one of `round(0.20 * (totalTrials - n))`, the
audio-only count likewise, and the dual count is within plus or minus one
of `round(0.10 * (totalTrials - n))`. -/
theorem buildGameSequence_matchCounts (σ : Nat → Nat) (fuel n totalTrials : Nat)
    (seq : List Stimulus) (_hn : 1 ≤ n) (hT : n + 1 ≤ totalTrials)
    (h : buildGameSequence σ fuel n totalTrials = some seq)
    (hr : 1 ≤ jsRound (totalTrials - n) 5) :
    within1 (seq.countP (fun s => s.isPositionMatch && !s.isAudioMatch))
      (jsRound (totalTrials - n) 5) ∧
    within1 (seq.countP (fun s => s.isAudioMatch && !s.isPositionMatch))
      (jsRound (totalTrials - n) 5) ∧
    within1 (seq.countP (fun s => s.isPositionMatch && s.isAudioMatch))
      (jsRound (totalTrials - n) 10) := by
  obtain ⟨posOnly, audOnly, dual, k1, k2, k3, h1, h2, h3, rfl⟩ :=
    buildGameSequence_eq σ fuel n totalTrials seq h
  have hm : 1 ≤ totalTrials - n := by omega
  obtain ⟨A1, B1, C1⟩ := pickRandomTrials_sound σ n (totalTrials - n) _ _ hm fuel [] 0 posOnly k1 h1
  obtain ⟨A2, B2, C2⟩ := pickRandomTrials_sound σ n (totalTrials - n) _ _ hm fuel [] k1 audOnly k2 h2
  obtain ⟨A3, B3, C3⟩ := pickRandomTrials_sound σ n (totalTrials - n) _ _ hm fuel [] k2 dual k3 h3
  have hA1 : ∀ t ∈ posOnly, n ≤ t ∧ t < n + (totalTrials - n) := by
    intro t ht
    rcases A1 t ht with h' | h'
    · simp at h'
    · exact ⟨h'.1, h'.2.1⟩
  have hA2 : ∀ t ∈ audOnly, n ≤ t ∧ t < n + (totalTrials - n) ∧ t ∉ posOnly := by
    intro t ht
    rcases A2 t ht with h' | h'
    · simp at h'
    · exact h'
  have hA3 : ∀ t ∈ dual, n ≤ t ∧ t < n + (totalTrials - n) ∧
      t ∉ posOnly ∧ t ∉ audOnly := by
    intro t ht
    rcases A3 t ht with h' | h'
    · simp at h'
    · refine ⟨h'.1, h'.2.1, ?_, ?_⟩ <;> intro hx <;>
        exact h'.2.2 (List.mem_append.2 (by first | exact Or.inl hx | exact Or.inr hx))
  have hmem1 : ∀ i : Nat, (i ∈ posOnly ++ dual ∧ i ∉ audOnly ++ dual) ↔ i ∈ posOnly := by
    intro i
    constructor
    · rintro ⟨hin, hout⟩
      rcases List.mem_append.1 hin with h' | h'
      · exact h'
      · exact absurd (List.mem_append.2 (Or.inr h')) hout
    · intro hin
      refine ⟨List.mem_append.2 (Or.inl hin), fun hout => ?_⟩
      rcases List.mem_append.1 hout with h' | h'
      · exact (hA2 i h').2.2 hin
      · exact (hA3 i h').2.2.1 hin
  have hmem2 : ∀ i : Nat, (i ∈ audOnly ++ dual ∧ i ∉ posOnly ++ dual) ↔ i ∈ audOnly := by
    intro i
    constructor
    · rintro ⟨hin, hout⟩
      rcases List.mem_append.1 hin with h' | h'
      · exact h'
      · exact absurd (List.mem_append.2 (Or.inr h')) hout
    · intro hin
      refine ⟨List.mem_append.2 (Or.inl hin), fun hout => ?_⟩
      rcases List.mem_append.1 hout with h' | h'
      · exact (hA2 i hin).2.2 h'
      · exact (hA3 i h').2.2.2 hin
  have hmem3 : ∀ i : Nat, (i ∈ posOnly ++ dual ∧ i ∈ audOnly ++ dual) ↔ i ∈ dual := by
    intro i
    constructor
    · rintro ⟨hin1, hin2⟩
      rcases List.mem_append.1 hin1 with h' | h'
      · rcases List.mem_append.1 hin2 with h'' | h''
        · exact absurd h' (hA2 i h'').2.2
        · exact h''
      · exact h'
    · intro hin
      exact ⟨List.mem_append.2 (Or.inr hin), List.mem_append.2 (Or.inr hin)⟩
  have hbound1 : ∀ x ∈ posOnly, x < totalTrials := by
    intro x hx
    have := hA1 x hx
    omega
  have hbound2 : ∀ x ∈ audOnly, x < totalTrials := by
    intro x hx
    have := hA2 x hx
    omega
  have hbound3 : ∀ x ∈ dual, x < totalTrials := by
    intro x hx
    have := hA3 x hx
    omega
  have hlen1 : posOnly.length = max 2 (jsRound (totalTrials - n) 5) := C1 (by simp)
  have hlen2 : audOnly.length = max 2 (jsRound (totalTrials - n) 5) := C2 (by simp)
  have hlen3 : dual.length = max 1 (jsRound (totalTrials - n) 10) := C3 (by simp)
  have hnd1 : posOnly.Nodup := B1 List.nodup_nil
  have hnd2 : audOnly.Nodup := B2 List.nodup_nil
  have hnd3 : dual.Nodup := B3 List.nodup_nil
  refine ⟨?_, ?_, ?_⟩
  · have e1 := countP_map_range_mem totalTrials
      (fun i => { position := (genLoop σ n (posOnly ++ dual) (audOnly ++ dual)
            totalTrials 0 k3 [] []).1.getD i 0
                  letter := (genLoop σ n (posOnly ++ dual) (audOnly ++ dual)
            totalTrials 0 k3 [] []).2.getD i 'A'
                  isPositionMatch := decide (i ∈ posOnly ++ dual)
                  isAudioMatch := decide (i ∈ audOnly ++ dual) })
      (fun s => s.isPositionMatch && !s.isAudioMatch)
      posOnly hnd1 hbound1
      (fun i => by
        dsimp only
        simp only [Bool.and_eq_true, Bool.not_eq_true', decide_eq_true_iff,
          decide_eq_false_iff_not]
        exact hmem1 i)
    rw [e1, hlen1]
    constructor <;> omega
  · have e2 := countP_map_range_mem totalTrials
      (fun i => { position := (genLoop σ n (posOnly ++ dual) (audOnly ++ dual)
            totalTrials 0 k3 [] []).1.getD i 0
                  letter := (genLoop σ n (posOnly ++ dual) (audOnly ++ dual)
            totalTrials 0 k3 [] []).2.getD i 'A'
                  isPositionMatch := decide (i ∈ posOnly ++ dual)
                  isAudioMatch := decide (i ∈ audOnly ++ dual) })
      (fun s => s.isAudioMatch && !s.isPositionMatch)
      audOnly hnd2 hbound2
      (fun i => by
        dsimp only
        simp only [Bool.and_eq_true, Bool.not_eq_true', decide_eq_true_iff,
          decide_eq_false_iff_not]
        exact hmem2 i)
    rw [e2, hlen2]
    constructor <;> omega
  · have e3 := countP_map_range_mem totalTrials
      (fun i => { position := (genLoop σ n (posOnly ++ dual) (audOnly ++ dual)
            totalTrials 0 k3 [] []).1.getD i 0
                  letter := (genLoop σ n (posOnly ++ dual) (audOnly ++ dual)
            totalTrials 0 k3 [] []).2.getD i 'A'
                  isPositionMatch := decide (i ∈ posOnly ++ dual)
                  isAudioMatch := decide (i ∈ audOnly ++ dual) })
      (fun s => s.isPositionMatch && s.isAudioMatch)
      dual hnd3 hbound3
      (fun i => by
        dsimp only
        simp only [Bool.and_eq_true, decide_eq_true_iff]
        exact hmem3 i)
    rw [e3, hlen3]
    constructor <;> omega

/-- Witness for C5: the amended count bounds instantiated on the concrete
generated sequence at `n = 2`, `totalTrials = 20`. -/
theorem buildGameSequence_matchCounts_applied :
    ((1 : Nat) ≤ 2 ∧ 2 + 1 ≤ 20 ∧
     buildGameSequence sigma0 100 2 20 = some seqW5 ∧ 1 ≤ jsRound (20 - 2) 5) ∧
    (within1 (seqW5.countP (fun s => s.isPositionMatch && !s.isAudioMatch))
      (jsRound (20 - 2) 5) ∧
     within1 (seqW5.countP (fun s => s.isAudioMatch && !s.isPositionMatch))
      (jsRound (20 - 2) 5) ∧
     within1 (seqW5.countP (fun s => s.isPositionMatch && s.isAudioMatch))
      (jsRound (20 - 2) 10)) :=
  ⟨⟨by decide, by decide, by decide, by decide⟩,
   buildGameSequence_matchCounts sigma0 100 2 20 seqW5
     (by decide) (by decide) (by decide) (by decide)⟩

lemma stepC_addC (w b : Bool) (p c : Counters) :
    addC (stepC w b p) c =
      addC p ⟨c.tp + (if w && b then 1 else 0),
              c.fp + (if !w && b then 1 else 0),
              c.fn + (if w && !b then 1 else 0)⟩ := by
  cases w <;> cases b <;> simp [stepC, addC, Counters.mk.injEq] <;> omega

lemma getD_of_getElem_some {α : Type} (l : List α) (i : Nat) (d x : α)
    (h : l[i]? = some x) : l.getD i d = x := by
  rw [List.getD_eq_getElem?_getD, h]
  rfl

lemma scoreGo_spec (seq : List Stimulus) (resp : List Response) :
    ∀ rem i p a, i + rem ≤ resp.length →
      scoreGo seq resp rem i p a =
        some
          (addC p
            ⟨(List.range' i rem).countP (fun j =>
                (seq.getD j stimDefault).isPositionMatch &&
                decide ((resp.getD j respDefault).position = some true)),
             (List.range' i rem).countP (fun j =>
                !(seq.getD j stimDefault).isPositionMatch &&
                decide ((resp.getD j respDefault).position = some true)),
             (List.range' i rem).countP (fun j =>
                (seq.getD j stimDefault).isPositionMatch &&
                !decide ((resp.getD j respDefault).position = some true))⟩,
           addC a
            ⟨(List.range' i rem).countP (fun j =>
                (seq.getD j stimDefault).isAudioMatch &&
                decide ((resp.getD j respDefault).audio = some true)),
             (List.range' i rem).countP (fun j =>
                !(seq.getD j stimDefault).isAudioMatch &&
                decide ((resp.getD j respDefault).audio = some true)),
             (List.range' i rem).countP (fun j =>
                (seq.getD j stimDefault).isAudioMatch &&
                !decide ((resp.getD j respDefault).audio = some true))⟩) := by
  intro rem
  induction rem with
  | zero =>
    intro i p a _h
    simp [scoreGo, addC]
  | succ rem ih =>
    intro i p a h
    have hi : i < resp.length := by omega
    obtain ⟨r, hr⟩ : ∃ r, resp[i]? = some r :=
      ⟨resp[i], List.getElem?_eq_getElem hi⟩
    have hrD : resp.getD i respDefault = r := getD_of_getElem_some _ _ _ _ hr
    simp only [scoreGo, hr]
    rw [ih (i + 1) _ _ (by omega)]
    rw [List.range'_succ]
    simp only [List.countP_cons, hrD, stepC_addC]

/-- C2: for equal-length inputs with `nLevel ≤ length`, `calculateScores`
scores exactly the indices `nLevel .. length - 1`, classifying each
channel of each trial as TP (flag and response), FP (no flag but
response), or FN (flag but no response), ignoring true negatives, and
returns per-channel percentages `round(100 * tp / (tp + fp + fn))` (zero
when the denominator is zero) and the overall percentage
`round(100 * (tp_pos + tp_aud) / (sum of all six counters))` with the
same zero rule. -/
theorem calculateScores_spec (sequence : List Stimulus)
    (responses : List Response) (nLevel : Nat)
    (hlen : responses.length = sequence.length)
    (hn : nLevel ≤ sequence.length) :
    calculateScores sequence responses nLevel =
      (let idxs := List.range' nLevel (sequence.length - nLevel)
       let pTp := idxs.countP (fun j =>
         (sequence.getD j stimDefault).isPositionMatch &&
         decide ((responses.getD j respDefault).position = some true))
       let pFp := idxs.countP (fun j =>
         !(sequence.getD j stimDefault).isPositionMatch &&
         decide ((responses.getD j respDefault).position = some true))
       let pFn := idxs.countP (fun j =>
         (sequence.getD j stimDefault).isPositionMatch &&
         !decide ((responses.getD j respDefault).position = some true))
       let aTp := idxs.countP (fun j =>
         (sequence.getD j stimDefault).isAudioMatch &&
         decide ((responses.getD j respDefault).audio = some true))
       let aFp := idxs.countP (fun j =>
         !(sequence.getD j stimDefault).isAudioMatch &&
         decide ((responses.getD j respDefault).audio = some true))
       let aFn := idxs.countP (fun j =>
         (sequence.getD j stimDefault).isAudioMatch &&
         !decide ((responses.getD j respDefault).audio = some true))
       some
         { positionPct :=
             if pTp + pFp + pFn = 0 then 0 else jsRound (pTp * 100) (pTp + pFp + pFn)
           audioPct :=
             if aTp + aFp + aFn = 0 then 0 else jsRound (aTp * 100) (aTp + aFp + aFn)
           overallPct :=
             if pTp + pFp + pFn + aTp + aFp + aFn = 0 then 0
             else jsRound ((pTp + aTp) * 100) (pTp + pFp + pFn + aTp + aFp + aFn) }) := by
  unfold calculateScores
  rw [scoreGo_spec sequence responses (sequence.length - nLevel) nLevel
    ⟨0, 0, 0⟩ ⟨0, 0, 0⟩ (by omega)]
  simp [mkResult, calcPct, addC]

/-- Witness for C2: the scoring characterization instantiated on a
two-trial sequence with one planned position match and one position
response. -/
theorem calculateScores_spec_applied :
    (([respDefault, ⟨some true, none⟩] : List Response).length =
       ([stimDefault, ⟨3, 'C', true, false⟩] : List Stimulus).length ∧
     1 ≤ ([stimDefault, ⟨3, 'C', true, false⟩] : List Stimulus).length) ∧
    calculateScores [stimDefault, ⟨3, 'C', true, false⟩]
        [respDefault, ⟨some true, none⟩] 1 =
      (let idxs := List.range' 1
        (([stimDefault, ⟨3, 'C', true, false⟩] : List Stimulus).length - 1)
       let pTp := idxs.countP (fun j =>
         (([stimDefault, ⟨3, 'C', true, false⟩] : List Stimulus).getD j stimDefault).isPositionMatch &&
         decide ((([respDefault, ⟨some true, none⟩] : List Response).getD j respDefault).position = some true))
       let pFp := idxs.countP (fun j =>
         !(([stimDefault, ⟨3, 'C', true, false⟩] : List Stimulus).getD j stimDefault).isPositionMatch &&
         decide ((([respDefault, ⟨some true, none⟩] : List Response).getD j respDefault).position = some true))
       let pFn := idxs.countP (fun j =>
         (([stimDefault, ⟨3, 'C', true, false⟩] : List Stimulus).getD j stimDefault).isPositionMatch &&
         !decide ((([respDefault, ⟨some true, none⟩] : List Response).getD j respDefault).position = some true))
       let aTp := idxs.countP (fun j =>
         (([stimDefault, ⟨3, 'C', true, false⟩] : List Stimulus).getD j stimDefault).isAudioMatch &&
         decide ((([respDefault, ⟨some true, none⟩] : List Response).getD j respDefault).audio = some true))
       let aFp := idxs.countP (fun j =>
         !(([stimDefault, ⟨3, 'C', true, false⟩] : List Stimulus).getD j stimDefault).isAudioMatch &&
         decide ((([respDefault, ⟨some true, none⟩] : List Response).getD j respDefault).audio = some true))
       let aFn := idxs.countP (fun j =>
         (([stimDefault, ⟨3, 'C', true, false⟩] : List Stimulus).getD j stimDefault).isAudioMatch &&
         !decide ((([respDefault, ⟨some true, none⟩] : List Response).getD j respDefault).audio = some true))
       some
         { positionPct :=
             if pTp + pFp + pFn = 0 then 0 else jsRound (pTp * 100) (pTp + pFp + pFn)
           audioPct :=
             if aTp + aFp + aFn = 0 then 0 else jsRound (aTp * 100) (aTp + aFp + aFn)
           overallPct :=
             if pTp + pFp + pFn + aTp + aFp + aFn = 0 then 0
             else jsRound ((pTp + aTp) * 100) (pTp + pFp + pFn + aTp + aFp + aFn) }) :=
  ⟨⟨by decide, by decide⟩,
   calculateScores_spec [stimDefault, ⟨3, 'C', true, false⟩]
     [respDefault, ⟨some true, none⟩] 1 (by decide) (by decide)⟩

lemma jsRound_zero_num (d : Nat) : jsRound 0 d = 0 := by
  unfold jsRound
  rcases Nat.eq_zero_or_pos d with rfl | hd
  · simp
  · rw [Nat.mul_zero, Nat.zero_add]
    exact Nat.div_eq_of_lt (by omega)

/-- C8: on a sequence that contains at least one position match and one
audio match at or after index `nLevel`, scoring with every response unset
yields zero percent on the position channel, the audio channel, and
overall — true negatives never inflate the score. -/
theorem calculateScores_all_unset (sequence : List Stimulus)
    (responses : List Response) (nLevel : Nat)
    (hlen : responses.length = sequence.length)
    (hunset : ∀ r ∈ responses, r.position = none ∧ r.audio = none)
    (hp : ∃ i, i < sequence.length ∧ nLevel ≤ i ∧
      (sequence.getD i stimDefault).isPositionMatch = true)
    (ha : ∃ i, i < sequence.length ∧ nLevel ≤ i ∧
      (sequence.getD i stimDefault).isAudioMatch = true) :
    calculateScores sequence responses nLevel = some ⟨0, 0, 0⟩ := by
  obtain ⟨i0, hi0, hni0, _⟩ := hp
  have hn : nLevel ≤ sequence.length := by omega
  have hrespnone : ∀ j, (responses.getD j respDefault).position = none ∧
      (responses.getD j respDefault).audio = none := by
    intro j
    by_cases hj : j < responses.length
    · have hsome : responses[j]? = some responses[j] := List.getElem?_eq_getElem hj
      rw [getD_of_getElem_some _ _ _ _ hsome]
      exact hunset _ (List.getElem_mem hj)
    · rw [List.getD_eq_getElem?_getD, List.getElem?_eq_none (by omega)]
      exact ⟨rfl, rfl⟩
  unfold calculateScores
  rw [scoreGo_spec sequence responses (sequence.length - nLevel) nLevel
    ⟨0, 0, 0⟩ ⟨0, 0, 0⟩ (by omega)]
  have hposz : ∀ j : Nat, decide ((responses.getD j respDefault).position = some true) = false := by
    intro j
    rw [(hrespnone j).1]
    rfl
  have haudz : ∀ j : Nat, decide ((responses.getD j respDefault).audio = some true) = false := by
    intro j
    rw [(hrespnone j).2]
    rfl
  simp only [hposz, haudz, Bool.and_false, Bool.false_and, List.countP_false,
    Bool.not_false, Bool.and_true]
  simp [mkResult, calcPct, addC, jsRound_zero_num]

/-- Witness for C8: all-unset scoring on a two-trial sequence whose second
trial is a planned dual match. -/
theorem calculateScores_all_unset_applied :
    (([respDefault, respDefault] : List Response).length =
       ([stimDefault, ⟨0, 'C', true, true⟩] : List Stimulus).length ∧
     (∀ r ∈ ([respDefault, respDefault] : List Response),
       r.position = none ∧ r.audio = none) ∧
     (∃ i, i < ([stimDefault, ⟨0, 'C', true, true⟩] : List Stimulus).length ∧ 1 ≤ i ∧
       (([stimDefault, ⟨0, 'C', true, true⟩] : List Stimulus).getD i stimDefault).isPositionMatch = true) ∧
     (∃ i, i < ([stimDefault, ⟨0, 'C', true, true⟩] : List Stimulus).length ∧ 1 ≤ i ∧
       (([stimDefault, ⟨0, 'C', true, true⟩] : List Stimulus).getD i stimDefault).isAudioMatch = true)) ∧
    calculateScores [stimDefault, ⟨0, 'C', true, true⟩]
      [respDefault, respDefault] 1 = some ⟨0, 0, 0⟩ :=
  ⟨⟨by decide, by decide, by decide, by decide⟩,
   calculateScores_all_unset [stimDefault, ⟨0, 'C', true, true⟩]
     [respDefault, respDefault] 1 (by decide) (by decide)
     (by decide) (by decide)⟩

lemma scoreGo_value_eq (seq : List Stimulus) (resp : List Response) (n : Nat)
    (hcons : ∀ i, i < seq.length → n ≤ i →
      ((seq.getD i stimDefault).isPositionMatch = true ↔
        (seq.getD i stimDefault).position = (seq.getD (i - n) stimDefault).position) ∧
      ((seq.getD i stimDefault).isAudioMatch = true ↔
        (seq.getD i stimDefault).letter = (seq.getD (i - n) stimDefault).letter)) :
    ∀ rem i p a, n ≤ i → i + rem ≤ seq.length →
      Part000.scoreGo seq resp n rem i p a = scoreGo seq resp rem i p a := by
  intro rem
  induction rem with
  | zero =>
    intro i p a _hni _hlen
    simp [Part000.scoreGo, scoreGo]
  | succ rem ih =>
    intro i p a hni hlen
    have hi : i < seq.length := by omega
    have hpos := (hcons i hi hni).1
    have haud := (hcons i hi hni).2
    have hw1 : decide ((seq.getD i stimDefault).position =
        (seq.getD (i - n) stimDefault).position) =
        (seq.getD i stimDefault).isPositionMatch := by
      rcases em ((seq.getD i stimDefault).position =
          (seq.getD (i - n) stimDefault).position) with hv | hv
      · rw [hpos.mpr hv, decide_eq_true hv]
      · rw [decide_eq_false hv]
        cases hb : (seq.getD i stimDefault).isPositionMatch
        · rfl
        · exact absurd (hpos.mp hb) hv
    have hw2 : decide ((seq.getD i stimDefault).letter =
        (seq.getD (i - n) stimDefault).letter) =
        (seq.getD i stimDefault).isAudioMatch := by
      rcases em ((seq.getD i stimDefault).letter =
          (seq.getD (i - n) stimDefault).letter) with hv | hv
      · rw [haud.mpr hv, decide_eq_true hv]
      · rw [decide_eq_false hv]
        cases hb : (seq.getD i stimDefault).isAudioMatch
        · rfl
        · exact absurd (haud.mp hb) hv
    simp only [Part000.scoreGo, scoreGo, hw1, hw2]
    cases hr : resp[i]? with
    | none => rfl
    | some r => exact ih (i + 1) _ _ (by omega) (by omega)

/-- C9: on any sequence whose precomputed flags agree with value
comparison at lag `n` (the generator's invariant), the flag-based scorer
of `src/script.js` and the value-recomparing scorer of
`src/unnamed/part_000` return identical results. -/
theorem calculateScores_refines (sequence : List Stimulus)
    (responses : List Response) (nLevel : Nat)
    (_hlen : responses.length = sequence.length)
    (hcons : ∀ i, i < sequence.length → nLevel ≤ i →
      ((sequence.getD i stimDefault).isPositionMatch = true ↔
        (sequence.getD i stimDefault).position =
          (sequence.getD (i - nLevel) stimDefault).position) ∧
      ((sequence.getD i stimDefault).isAudioMatch = true ↔
        (sequence.getD i stimDefault).letter =
          (sequence.getD (i - nLevel) stimDefault).letter)) :
    calculateScores sequence responses nLevel =
      Part000.calculateScores sequence responses nLevel := by
  unfold calculateScores Part000.calculateScores
  by_cases hn : nLevel ≤ sequence.length
  · rw [scoreGo_value_eq sequence responses nLevel hcons
      (sequence.length - nLevel) nLevel ⟨0, 0, 0⟩ ⟨0, 0, 0⟩ le_rfl (by omega)]
  · have hz : sequence.length - nLevel = 0 := by omega
    rw [hz]
    rfl

/-- Witness for C9: both scorers agree on a concrete flag-consistent
two-trial sequence with one response set. -/
theorem calculateScores_refines_applied :
    (([⟨some true, none⟩, ⟨none, some true⟩] : List Response).length =
       ([⟨0, 'C', false, false⟩, ⟨0, 'H', true, false⟩] : List Stimulus).length ∧
     (∀ i, i < ([⟨0, 'C', false, false⟩, ⟨0, 'H', true, false⟩] : List Stimulus).length → 1 ≤ i →
       ((([⟨0, 'C', false, false⟩, ⟨0, 'H', true, false⟩] : List Stimulus).getD i stimDefault).isPositionMatch = true ↔
         (([⟨0, 'C', false, false⟩, ⟨0, 'H', true, false⟩] : List Stimulus).getD i stimDefault).position =
           (([⟨0, 'C', false, false⟩, ⟨0, 'H', true, false⟩] : List Stimulus).getD (i - 1) stimDefault).position) ∧
       ((([⟨0, 'C', false, false⟩, ⟨0, 'H', true, false⟩] : List Stimulus).getD i stimDefault).isAudioMatch = true ↔
         (([⟨0, 'C', false, false⟩, ⟨0, 'H', true, false⟩] : List Stimulus).getD i stimDefault).letter =
           (([⟨0, 'C', false, false⟩, ⟨0, 'H', true, false⟩] : List Stimulus).getD (i - 1) stimDefault).letter))) ∧
    calculateScores [⟨0, 'C', false, false⟩, ⟨0, 'H', true, false⟩]
        [⟨some true, none⟩, ⟨none, some true⟩] 1 =
      Part000.calculateScores [⟨0, 'C', false, false⟩, ⟨0, 'H', true, false⟩]
        [⟨some true, none⟩, ⟨none, some true⟩] 1 :=
  ⟨⟨by decide, by decide⟩,
   calculateScores_refines [⟨0, 'C', false, false⟩, ⟨0, 'H', true, false⟩]
     [⟨some true, none⟩, ⟨none, some true⟩] 1 (by decide) (by decide)⟩

/-- C6 evidence: on a two-stimulus sequence with three responses — lengths
differ — the scorer raises no contract-violation error: it returns a
score, silently ignoring the extra response.  (The code contains no
length check; the only failure it can exhibit is the uncaught field
access on a missing response when `responses` is the shorter list.) -/
theorem calculateScores_truncates_silently :
    (([respDefault, respDefault, respDefault] : List Response).length ≠
      ([stimDefault, stimDefault] : List Stimulus).length) ∧
    calculateScores [stimDefault, stimDefault]
      [respDefault, respDefault, respDefault] 1 = some ⟨0, 0, 0⟩ :=
  ⟨by decide, by decide⟩

/-- C7: the level controller raises the level exactly on
`overallPct ≥ 85` below level 9, otherwise lowers it exactly on
`overallPct < 70` above level 1, otherwise keeps it; the level stays in
`[1, 9]`, so level 9 never increments and level 1 never decrements. -/
theorem updateResultsUI_policy (overallPct nLevel : Nat)
    (h1 : 1 ≤ nLevel) (h9 : nLevel ≤ 9) :
    (LEVEL_UP_THRESHOLD ≤ overallPct ∧ nLevel < 9 →
      updateResultsUI overallPct nLevel = nLevel + 1) ∧
    (¬(LEVEL_UP_THRESHOLD ≤ overallPct ∧ nLevel < 9) →
      overallPct < LEVEL_DOWN_THRESHOLD ∧ 1 < nLevel →
      updateResultsUI overallPct nLevel = nLevel - 1) ∧
    (¬(LEVEL_UP_THRESHOLD ≤ overallPct ∧ nLevel < 9) →
      ¬(overallPct < LEVEL_DOWN_THRESHOLD ∧ 1 < nLevel) →
      updateResultsUI overallPct nLevel = nLevel) ∧
    1 ≤ updateResultsUI overallPct nLevel ∧
    updateResultsUI overallPct nLevel ≤ 9 := by
  unfold updateResultsUI LEVEL_UP_THRESHOLD LEVEL_DOWN_THRESHOLD
  refine ⟨?_, ?_, ?_, ?_, ?_⟩ <;> intros <;> split_ifs <;> omega

/-- Witness for C7: a 90 percent session at level 3 levels up to 4, and
the result stays within bounds. -/
theorem updateResultsUI_policy_applied :
    ((1 : Nat) ≤ 3 ∧ 3 ≤ 9) ∧
    ((LEVEL_UP_THRESHOLD ≤ 90 ∧ 3 < 9 → updateResultsUI 90 3 = 3 + 1) ∧
     (¬(LEVEL_UP_THRESHOLD ≤ 90 ∧ 3 < 9) →
       90 < LEVEL_DOWN_THRESHOLD ∧ 1 < 3 → updateResultsUI 90 3 = 3 - 1) ∧
     (¬(LEVEL_UP_THRESHOLD ≤ 90 ∧ 3 < 9) →
       ¬(90 < LEVEL_DOWN_THRESHOLD ∧ 1 < 3) → updateResultsUI 90 3 = 3) ∧
     1 ≤ updateResultsUI 90 3 ∧ updateResultsUI 90 3 ≤ 9) :=
  ⟨⟨by decide, by decide⟩, updateResultsUI_policy 90 3 (by decide) (by decide)⟩

lemma listModify_length {α : Type} :
    ∀ (l : List α) (i : Nat) (f : α → α), (listModify l i f).length = l.length := by
  intro l
  induction l with
  | nil => intro i f; rfl
  | cons x xs ih =>
    intro i f
    cases i with
    | zero => rfl
    | succ j => simp [listModify, ih]

lemma listModify_getD_ne {α : Type} :
    ∀ (l : List α) (i j : Nat) (f : α → α) (d : α), j ≠ i →
      (listModify l i f).getD j d = l.getD j d := by
  intro l
  induction l with
  | nil => intro i j f d _h; rfl
  | cons x xs ih =>
    intro i j f d hji
    cases i with
    | zero =>
      cases j with
      | zero => exact absurd rfl hji
      | succ j' => rfl
    | succ i' =>
      cases j with
      | zero => rfl
      | succ j' =>
        simp only [listModify, List.getD_cons_succ]
        exact ih i' j' f d (by omega)

lemma listModify_getD_eq {α : Type} :
    ∀ (l : List α) (i : Nat) (f : α → α) (d : α), i < l.length →
      (listModify l i f).getD i d = f (l.getD i d) := by
  intro l
  induction l with
  | nil => intro i f d h; simp at h
  | cons x xs ih =>
    intro i f d h
    cases i with
    | zero => rfl
    | succ i' =>
      simp only [listModify, List.getD_cons_succ]
      exact ih i' f d (by simpa using h)

/-- C10: during an active game with a current trial, `handleInput`
mutates only the slot `currentTrial - 1`:  `left` sets only the position
field, `right` only the audio field, `up` sets both, `down` resets both
to unset; every other slot is unchanged by every input. -/
theorem handleInput_effect (currentTrial : Nat) (responses : List Response)
    (hact : 1 ≤ currentTrial) (hlt : currentTrial - 1 < responses.length) :
    ∀ direction : Direction,
      (handleInput true currentTrial responses direction).length = responses.length ∧
      (∀ j, j ≠ currentTrial - 1 →
        (handleInput true currentTrial responses direction).getD j respDefault =
          responses.getD j respDefault) ∧
      (handleInput true currentTrial responses direction).getD
          (currentTrial - 1) respDefault =
        (match direction with
         | .left => { responses.getD (currentTrial - 1) respDefault with
                        position := some true }
         | .right => { responses.getD (currentTrial - 1) respDefault with
                        audio := some true }
         | .up => { position := some true, audio := some true }
         | .down => { position := none, audio := none }) := by
  have hg : ¬(true = false ∨ currentTrial = 0) := by
    simp
    omega
  intro direction
  cases direction <;>
    simp only [handleInput, if_neg hg] <;>
    exact ⟨listModify_length _ _ _,
      fun j hj => listModify_getD_ne _ _ _ _ _ hj,
      by rw [listModify_getD_eq _ _ _ _ hlt]⟩

/-- Witness for C10: the four inputs applied to a concrete two-slot
response list at trial 1. -/
theorem handleInput_effect_applied :
    ((1 : Nat) ≤ 1 ∧
     1 - 1 < ([⟨some true, none⟩, respDefault] : List Response).length) ∧
    (∀ direction : Direction,
      (handleInput true 1 [⟨some true, none⟩, respDefault] direction).length =
        ([⟨some true, none⟩, respDefault] : List Response).length ∧
      (∀ j, j ≠ 1 - 1 →
        (handleInput true 1 [⟨some true, none⟩, respDefault] direction).getD j respDefault =
          ([⟨some true, none⟩, respDefault] : List Response).getD j respDefault) ∧
      (handleInput true 1 [⟨some true, none⟩, respDefault] direction).getD
          (1 - 1) respDefault =
        (match direction with
         | .left => { ([⟨some true, none⟩, respDefault] : List Response).getD
                        (1 - 1) respDefault with position := some true }
         | .right => { ([⟨some true, none⟩, respDefault] : List Response).getD
                        (1 - 1) respDefault with audio := some true }
         | .up => { position := some true, audio := some true }
         | .down => { position := none, audio := none })) :=
  ⟨⟨by decide, by decide⟩,
   handleInput_effect 1 [⟨some true, none⟩, respDefault] (by decide) (by decide)⟩
